import Mathlib

/-!
Shallow embedding of the bagslotto lottery core (src/lib/lottery.ts, src/lib/helius.ts,
src/lib/birdeye.ts) and proofs about it.

Modelling conventions:
* JavaScript numbers that hold token balances / amounts are modelled as `ℚ`
  (they are decimal UI amounts); ticket counts and cumulative sums as `ℤ`;
  the arbitrary-precision `BigInt` seed as `ℕ`.
* `Date.now()` is passed in explicitly as a `now : ℤ` argument.
* `crypto.getRandomValues` of one `Uint32` is passed in as a `randomValue : ℕ` argument
  (callers quantify over `randomValue < 2 ^ 32`).
* `fetch` results are passed in as a `FetchOutcome` argument; a thrown exception is the
  `networkError` constructor, a non-2xx response the `httpError` constructor.
* a thrown `SyntaxError` / `RangeError` from `BigInt` parsing or `BigInt` modulo by zero
  is modelled by an `Option.none` result.
* `String.prototype.localeCompare` is modelled as code-point order on the address
  characters, and the stable `Array.prototype.sort` as insertion sort (the unique
  stable sort for the comparator).
-/

/-- Entry of the lottery, mirroring the `LotteryEntry` interface of src/lib/lottery.ts. -/
structure LotteryEntry where
  wallet : String
  balance : ℚ
  tickets : ℤ
  eligible : Bool
  reason : Option String
deriving DecidableEq

/-- Mirror of the `LotteryResult` interface; the optional `blockHash`/`blockSlot`
fields are `none` for the non-verifiable draw. -/
structure LotteryResult where
  winner : LotteryEntry
  totalTickets : ℤ
  totalEligible : ℕ
  winningTicket : ℤ
  timestamp : ℤ
  blockHash : Option String
  blockSlot : Option ℤ
deriving DecidableEq

/-- Mirror of the `LotterySnapshot` interface. -/
structure LotterySnapshot where
  entries : List LotteryEntry
  totalTickets : ℤ
  totalEligible : ℕ
  snapshotTime : ℤ
  tokenMint : String
deriving DecidableEq

/-- Holder rows consumed by `buildLotteryEntries` (`{ owner, balance }`). -/
structure Holder where
  owner : String
  balance : ℚ
deriving DecidableEq

/-- Eligibility record (`{ eligible, reason? }`) as produced by `hasNeverSold`. -/
structure EligResult where
  eligible : Bool
  reason : Option String
deriving DecidableEq

/-- Tickets for a balance (src/lib/lottery.ts `calculateTickets`):
cap the balance at `MAX_TOKENS = 20_000_000`, floor to whole tickets
(`TOKENS_PER_TICKET = 10_000`), cap at `MAX_TICKETS = 2_000`. -/
def calculateTickets (balance : ℚ) : ℤ :=
  let cappedBalance := min balance 20000000
  let tickets := ⌊cappedBalance / 10000⌋
  min tickets 2000

/-- Join holders with eligibility into entries (src/lib/lottery.ts `buildLotteryEntries`):
holders below one ticket are skipped; `eligibility?.eligible ?? false` and
`eligibility?.reason` are the `Option`-valued lookups. The `Map` is modelled as a
lookup function. -/
def buildLotteryEntries (holders : List Holder)
    (eligibilityMap : String → Option EligResult) : List LotteryEntry :=
  match holders with
  | [] => []
  | holder :: rest =>
    let tickets := calculateTickets holder.balance
    if tickets < 1 then buildLotteryEntries rest eligibilityMap
    else
      { wallet := holder.owner
        balance := holder.balance
        tickets := tickets
        eligible := (eligibilityMap holder.owner).elim false EligResult.eligible
        reason := (eligibilityMap holder.owner).bind EligResult.reason } ::
      buildLotteryEntries rest eligibilityMap

/-- Comparator of the two deterministic sorts (`(a, b) => a.wallet.localeCompare(b.wallet)`),
modelled as code-point order on the wallet characters. -/
def walletLE (a b : LotteryEntry) : Prop := a.wallet.data ≤ b.wallet.data

/-- Strict version of `walletLE`, used to reason about lists of pairwise distinct wallets. -/
def walletLT (a b : LotteryEntry) : Prop := a.wallet.data < b.wallet.data

instance : DecidableRel walletLE := fun a b =>
  inferInstanceAs (Decidable (a.wallet.data ≤ b.wallet.data))

instance : DecidableRel walletLT := fun a b =>
  inferInstanceAs (Decidable (a.wallet.data < b.wallet.data))

instance : IsTotal LotteryEntry walletLE := ⟨fun a b => le_total a.wallet.data b.wallet.data⟩

instance : IsTrans LotteryEntry walletLE := ⟨fun _ _ _ h1 h2 => le_trans h1 h2⟩

instance : IsAntisymm LotteryEntry walletLT :=
  ⟨fun _ _ h1 h2 => (lt_asymm h1 h2).elim⟩

/-- Stable ascending sort by wallet; models `eligible.sort((a, b) => a.wallet.localeCompare(b.wallet))`
of src/lib/lottery.ts (`Array.prototype.sort` is stable). -/
def sortByWallet (l : List LotteryEntry) : List LotteryEntry := List.insertionSort walletLE l

/-- Eligibility filter shared by `pickWinner`, `pickWinnerVerifiable` and `createSnapshot`:
`entries.filter(e => e.eligible && e.tickets > 0)`. -/
def eligibleFilter (entries : List LotteryEntry) : List LotteryEntry :=
  entries.filter fun e => e.eligible && decide (0 < e.tickets)

/-- Ticket total: `eligible.reduce((sum, e) => sum + e.tickets, 0)`. -/
def totalTicketsOf (l : List LotteryEntry) : ℤ := (l.map LotteryEntry.tickets).sum

/-- Cumulative-walk loop shared by `pickWinner`, `pickWinnerVerifiable` and `verifyResult`:
`ticketCount += entry.tickets; if (ticketCount >= winningTicket) return entry`. -/
def findWinner : List LotteryEntry → ℤ → ℤ → Option LotteryEntry
  | [], _, _ => none
  | e :: rest, acc, w =>
    if w ≤ acc + e.tickets then some e else findWinner rest (acc + e.tickets) w

/-- Index-valued variant of `findWinner`, returning the position of the selected
entry in the walked list. -/
def findWinnerIdx : List LotteryEntry → ℤ → ℤ → Option ℕ
  | [], _, _ => none
  | e :: rest, acc, w =>
    if w ≤ acc + e.tickets then some 0
    else (findWinnerIdx rest (acc + e.tickets) w).map (· + 1)

/-- Cumulative ticket total of the first `i` entries of the walked list. -/
def prefTickets (l : List LotteryEntry) (i : ℕ) : ℤ := totalTicketsOf (l.take i)

/-- Winning-ticket map of the non-verifiable draw (src/lib/lottery.ts line 103):
`(randomBytes[0] % totalTickets) + 1`. -/
def drawWinningTicket (randomValue : ℕ) (totalTickets : ℤ) : ℤ :=
  (randomValue : ℤ) % totalTickets + 1

/-- Non-verifiable weighted draw (src/lib/lottery.ts `pickWinner`); `randomValue` is the
`Uint32` delivered by `crypto.getRandomValues`, `now` is `Date.now()`. -/
def pickWinner (entries : List LotteryEntry) (randomValue : ℕ) (now : ℤ) :
    Option LotteryResult :=
  let eligible := eligibleFilter entries
  if eligible.isEmpty then none
  else
    let total := totalTicketsOf eligible
    let winningTicket := drawWinningTicket randomValue total
    (findWinner eligible 0 winningTicket).map fun e =>
      { winner := e
        totalTickets := total
        totalEligible := eligible.length
        winningTicket := winningTicket
        timestamp := now
        blockHash := none
        blockSlot := none }

/-- Hexadecimal digit value, as accepted by `BigInt('0x' + s)`. -/
def hexDigitVal (c : Char) : Option ℕ :=
  if '0' ≤ c ∧ c ≤ '9' then some (c.toNat - '0'.toNat)
  else if 'a' ≤ c ∧ c ≤ 'f' then some (c.toNat - 'a'.toNat + 10)
  else if 'A' ≤ c ∧ c ≤ 'F' then some (c.toNat - 'A'.toNat + 10)
  else none

/-- Accumulating hexadecimal parse of a digit list. -/
def hexValFrom : List Char → ℕ → Option ℕ
  | [], acc => some acc
  | c :: cs, acc =>
    match hexDigitVal c with
    | some d => hexValFrom cs (16 * acc + d)
    | none => none

/-- Value of `BigInt('0x' + s)` as an arbitrary-precision natural number; `none`
models the `SyntaxError` thrown on an empty string or a non-hex character. -/
def parseHexNat (s : String) : Option ℕ :=
  match s.data with
  | [] => none
  | cs => hexValFrom cs 0

/-- Seed normalization of `pickWinnerVerifiable` and `verifyResult`:
`blockHash.startsWith('0x') ? blockHash.slice(2) : blockHash`. -/
def cleanHashOf (blockHash : String) : String :=
  match blockHash.data with
  | '0' :: 'x' :: rest => String.mk rest
  | _ => blockHash

/-- Verifiable draw (src/lib/lottery.ts `pickWinnerVerifiable`): filter eligible entries,
bail out when none, sort by wallet, derive the winning ticket from the block-hash seed
by arbitrary-precision modulo, walk the sorted entries. -/
def pickWinnerVerifiable (entries : List LotteryEntry) (blockHash : String)
    (blockSlot : ℤ) (now : ℤ) : Option LotteryResult :=
  let eligible := eligibleFilter entries
  if eligible.isEmpty then none
  else
    let sorted := sortByWallet eligible
    let total := totalTicketsOf sorted
    let cleanHash := cleanHashOf blockHash
    match parseHexNat cleanHash with
    | none => none
    | some hashVal =>
      let winningTicket : ℤ := (hashVal : ℤ) % total + 1
      (findWinner sorted 0 winningTicket).map fun e =>
        { winner := e
          totalTickets := total
          totalEligible := sorted.length
          winningTicket := winningTicket
          timestamp := now
          blockHash := some cleanHash
          blockSlot := some blockSlot }

/-- Snapshot creation (src/lib/lottery.ts `createSnapshot`): filter eligible entries,
sort deterministically, record the ticket total and creation time. -/
def createSnapshot (entries : List LotteryEntry) (tokenMint : String) (now : ℤ) :
    LotterySnapshot :=
  let eligible := sortByWallet (eligibleFilter entries)
  { entries := eligible
    totalTickets := totalTicketsOf eligible
    totalEligible := eligible.length
    snapshotTime := now
    tokenMint := tokenMint }

/-- Return shape of `verifyResult`. -/
structure VerifyOutcome where
  valid : Bool
  calculatedWinner : String
  winningTicket : ℤ
deriving DecidableEq

/-- Third-party verification (src/lib/lottery.ts `verifyResult`): recompute the winning
ticket from the snapshot's `totalTickets` and walk the snapshot's entries. `none` models
the exceptions thrown by `BigInt` on a malformed seed or on modulo by zero
(`snapshot.totalTickets = 0`). -/
def verifyResult (snapshot : LotterySnapshot) (blockHash claimedWinner : String) :
    Option VerifyOutcome :=
  match parseHexNat (cleanHashOf blockHash) with
  | none => none
  | some hashVal =>
    if snapshot.totalTickets = 0 then none
    else
      let winningTicket : ℤ := (hashVal : ℤ) % snapshot.totalTickets + 1
      match findWinner snapshot.entries 0 winningTicket with
      | some e => some ⟨decide (e.wallet = claimedWinner), e.wallet, winningTicket⟩
      | none => some ⟨false, "", winningTicket⟩

/-- Mirror of the `TokenTransfer` interface of src/lib/helius.ts / src/lib/birdeye.ts. -/
structure TokenTransfer where
  mint : String
  fromUserAccount : String
  toUserAccount : String
  tokenAmount : ℚ
deriving DecidableEq

/-- Mirror of the `ParsedTransaction` interface; `tokenTransfers` is optional. -/
structure ParsedTransaction where
  signature : String
  timestamp : ℤ
  type : String
  tokenTransfers : Option (List TokenTransfer)
deriving DecidableEq

/-- Outcome of the transaction-history fetch, supplied as an explicit input:
`ok` carries the parsed JSON body, `httpError` a non-success status
(`!response.ok`), `networkError` a thrown exception. -/
inductive FetchOutcome where
  | ok (transactions : List ParsedTransaction) : FetchOutcome
  | httpError (status : ℕ) : FetchOutcome
  | networkError : FetchOutcome
deriving DecidableEq

/-- Scan of one transaction's transfer list for the first outgoing transfer of the
token: `transfer.mint === tokenMint && transfer.fromUserAccount === walletAddress &&
transfer.tokenAmount > 0`. -/
def findSaleIn (walletAddress tokenMint : String) :
    List TokenTransfer → Option TokenTransfer
  | [] => none
  | t :: rest =>
    if t.mint = tokenMint ∧ t.fromUserAccount = walletAddress ∧ 0 < t.tokenAmount
    then some t
    else findSaleIn walletAddress tokenMint rest

/-- Nested scan of the transaction history (the two `for` loops of `hasNeverSold`):
first transaction, in order, holding a qualifying outgoing transfer, together with
that transfer; transactions without a `tokenTransfers` field are skipped. -/
def findSale (walletAddress tokenMint : String) :
    List ParsedTransaction → Option (ParsedTransaction × TokenTransfer)
  | [] => none
  | tx :: rest =>
    match tx.tokenTransfers with
    | none => findSale walletAddress tokenMint rest
    | some ts =>
      match findSaleIn walletAddress tokenMint ts with
      | some t => some (tx, t)
      | none => findSale walletAddress tokenMint rest

/-- Wallet-history eligibility check of src/lib/birdeye.ts (`hasNeverSold`, uncached
variant): fail closed on a failed query; on the first qualifying outgoing transfer,
ineligible with a reason citing the amount and the first 8 characters of the
transaction signature; otherwise eligible. -/
def hasNeverSoldBirdeye (walletAddress tokenMint : String) (fetched : FetchOutcome) :
    EligResult :=
  match fetched with
  | .httpError status => ⟨false, some ("API error: " ++ toString status)⟩
  | .networkError => ⟨false, some "Error checking transaction history"⟩
  | .ok transactions =>
    match findSale walletAddress tokenMint transactions with
    | some (tx, transfer) =>
      ⟨false, some ("Sold/transferred " ++ toString transfer.tokenAmount ++
        " tokens (tx: " ++ tx.signature.take 8 ++ "...)")⟩
    | none => ⟨true, none⟩

/-- Entry of the in-memory `eligibilityCache` of src/lib/helius.ts. -/
structure CacheEntry where
  eligible : Bool
  reason : Option String
  timestamp : ℤ
deriving DecidableEq

/-- The `eligibilityCache` `Map`, modelled as a lookup function on the
`tokenMint:walletAddress` key. -/
def EligCache : Type := String → Option CacheEntry

/-- Empty cache (initial module state). -/
def emptyCache : EligCache := fun _ => none

/-- Point update of the cache (`eligibilityCache.set(cacheKey, ...)`). -/
def cacheSet (c : EligCache) (key : String) (e : CacheEntry) : EligCache :=
  fun k => if k = key then some e else c k

/-- Cache time-to-live of src/lib/helius.ts: `5 * 60 * 1000` milliseconds. -/
def CACHE_TTL : ℤ := 5 * 60 * 1000

/-- Post-cache-check body of the helius `hasNeverSold`: perform the fetch and scan;
the two success paths write the cache, the two failure paths do not. Returns the
eligibility result, the cache after the call, and a flag recording that the network
was consulted. -/
def hasNeverSoldFetch (cache : EligCache) (now : ℤ) (cacheKey walletAddress tokenMint : String)
    (fetched : FetchOutcome) : EligResult × EligCache × Bool :=
  match fetched with
  | .httpError status => (⟨false, some ("API error: " ++ toString status)⟩, cache, true)
  | .networkError => (⟨false, some "Error checking transaction history"⟩, cache, true)
  | .ok transactions =>
    match findSale walletAddress tokenMint transactions with
    | some (_, transfer) =>
      let result : EligResult :=
        ⟨false, some ("Sold/transferred " ++ toString transfer.tokenAmount ++ " tokens")⟩
      (result, cacheSet cache cacheKey ⟨result.eligible, result.reason, now⟩, true)
    | none => (⟨true, none⟩, cacheSet cache cacheKey ⟨true, none, now⟩, true)

/-- Wallet-history eligibility check of src/lib/helius.ts (`hasNeverSold`, cached
variant): a cache entry younger than `CACHE_TTL` short-circuits the network call
(third component `false`); otherwise the fetch body runs. `Date.now()` is the `now`
argument; the would-be fetch outcome is the `fetched` argument. -/
def hasNeverSoldHelius (cache : EligCache) (now : ℤ) (walletAddress tokenMint : String)
    (fetched : FetchOutcome) : EligResult × EligCache × Bool :=
  let cacheKey := tokenMint ++ ":" ++ walletAddress
  match cache cacheKey with
  | some cached =>
    if now - cached.timestamp < CACHE_TTL then (⟨cached.eligible, cached.reason⟩, cache, false)
    else hasNeverSoldFetch cache now cacheKey walletAddress tokenMint fetched
  | none => hasNeverSoldFetch cache now cacheKey walletAddress tokenMint fetched

/-- Model of `clearEligibilityCache` of src/lib/helius.ts: `eligibilityCache.clear()`. -/
def clearEligibilityCache (_ : EligCache) : EligCache := emptyCache

/-- Spec-side predicate for claim C7: some transaction of the history contains an
outgoing transfer of the token from the wallet with positive amount. -/
def soldInHistory (walletAddress tokenMint : String) (txs : List ParsedTransaction) : Prop :=
  ∃ tx ∈ txs, ∃ ts, tx.tokenTransfers = some ts ∧
    ∃ t ∈ ts, t.mint = tokenMint ∧ t.fromUserAccount = walletAddress ∧ 0 < t.tokenAmount

/-- Sample entry used to instantiate hypothesis-bearing theorems. -/
def eA : LotteryEntry :=
  { wallet := "a", balance := 10000, tickets := 1, eligible := true, reason := none }

/-- Second sample entry. -/
def eB : LotteryEntry :=
  { wallet := "b", balance := 25000, tickets := 2, eligible := true, reason := none }

/-- Sample entry sharing the wallet of `eDup2` but differing in `reason`. -/
def eDup1 : LotteryEntry :=
  { wallet := "a", balance := 1, tickets := 1, eligible := true, reason := none }

/-- Sample entry sharing the wallet of `eDup1` but differing in `reason`. -/
def eDup2 : LotteryEntry :=
  { wallet := "a", balance := 1, tickets := 1, eligible := true, reason := some "x" }

/-- Sample transaction containing one outgoing transfer of token `m` from wallet `w`. -/
def txSale : ParsedTransaction :=
  { signature := "sig12345XYZ", timestamp := 0, type := "TRANSFER",
    tokenTransfers :=
      some [{ mint := "m", fromUserAccount := "w", toUserAccount := "v", tokenAmount := 5 }] }

theorem prefTickets_zero (l : List LotteryEntry) : prefTickets l 0 = 0 := rfl

theorem prefTickets_nil (i : ℕ) : prefTickets [] i = 0 := by
  simp [prefTickets, totalTicketsOf]

theorem prefTickets_cons_succ (e : LotteryEntry) (l : List LotteryEntry) (i : ℕ) :
    prefTickets (e :: l) (i + 1) = e.tickets + prefTickets l i := by
  simp [prefTickets, totalTicketsOf]

theorem prefTickets_length (l : List LotteryEntry) :
    prefTickets l l.length = totalTicketsOf l := by
  simp [prefTickets]

theorem prefTickets_nonneg {l : List LotteryEntry} (h : ∀ e ∈ l, 0 ≤ e.tickets) (i : ℕ) :
    0 ≤ prefTickets l i := by
  induction l generalizing i with
  | nil => simp [prefTickets_nil]
  | cons e rest ih =>
    cases i with
    | zero => simp [prefTickets_zero]
    | succ j =>
      rw [prefTickets_cons_succ]
      have h1 : 0 ≤ e.tickets := h e (by simp)
      have h2 : 0 ≤ prefTickets rest j := ih (fun x hx => h x (by simp [hx])) j
      omega

theorem prefTickets_succ_get {l : List LotteryEntry} {i : ℕ} (hi : i < l.length) :
    prefTickets l (i + 1) = prefTickets l i + (l.get ⟨i, hi⟩).tickets := by
  induction l generalizing i with
  | nil => simp at hi
  | cons e rest ih =>
    cases i with
    | zero => simp [prefTickets_cons_succ, prefTickets_zero]
    | succ j =>
      have hj : j < rest.length := by simpa using hi
      rw [prefTickets_cons_succ, prefTickets_cons_succ, ih hj]
      simp [add_assoc]

theorem prefTickets_mono {l : List LotteryEntry} (h : ∀ e ∈ l, 0 ≤ e.tickets)
    {i j : ℕ} (hij : i ≤ j) : prefTickets l i ≤ prefTickets l j := by
  induction l generalizing i j with
  | nil => simp [prefTickets_nil]
  | cons e rest ih =>
    cases i with
    | zero =>
      cases j with
      | zero => simp
      | succ j' =>
        rw [prefTickets_zero, prefTickets_cons_succ]
        have h1 : 0 ≤ e.tickets := h e (by simp)
        have h2 : 0 ≤ prefTickets rest j' :=
          prefTickets_nonneg (fun x hx => h x (by simp [hx])) j'
        omega
    | succ i' =>
      cases j with
      | zero => omega
      | succ j' =>
        rw [prefTickets_cons_succ, prefTickets_cons_succ]
        have := ih (fun x hx => h x (by simp [hx])) (Nat.succ_le_succ_iff.mp hij)
        omega

theorem findWinnerIdx_eq_some_iff {l : List LotteryEntry} {acc w : ℤ} {i : ℕ}
    (hnn : ∀ e ∈ l, 0 ≤ e.tickets) (hacc : acc < w) :
    findWinnerIdx l acc w = some i ↔
      i < l.length ∧ acc + prefTickets l i < w ∧ w ≤ acc + prefTickets l (i + 1) := by
  induction l generalizing acc i with
  | nil => simp [findWinnerIdx]
  | cons e rest ih =>
    have he : 0 ≤ e.tickets := hnn e (by simp)
    have hrest : ∀ x ∈ rest, 0 ≤ x.tickets := fun x hx => hnn x (by simp [hx])
    by_cases hcase : w ≤ acc + e.tickets
    · rw [findWinnerIdx, if_pos hcase]
      constructor
      · rintro h
        cases h
        refine ⟨by simp, ?_, ?_⟩
        · simpa [prefTickets_zero] using hacc
        · simpa [prefTickets_cons_succ, prefTickets_zero] using hcase
      · rintro ⟨hlen, hlo, hhi⟩
        cases i with
        | zero => rfl
        | succ j =>
          exfalso
          rw [prefTickets_cons_succ] at hlo
          have := prefTickets_nonneg hrest j
          omega
    · rw [findWinnerIdx, if_neg hcase]
      have hacc2 : acc + e.tickets < w := by omega
      constructor
      · intro h
        obtain ⟨j, hj, rfl⟩ := Option.map_eq_some'.mp h
        obtain ⟨hjlen, hjlo, hjhi⟩ := (ih hrest hacc2).mp hj
        refine ⟨by simpa using hjlen, ?_, ?_⟩
        · rw [prefTickets_cons_succ]; omega
        · rw [prefTickets_cons_succ]; omega
      · rintro ⟨hlen, hlo, hhi⟩
        cases i with
        | zero =>
          exfalso
          rw [prefTickets_cons_succ, prefTickets_zero] at hhi
          omega
        | succ j =>
          rw [prefTickets_cons_succ] at hlo hhi
          have hj : findWinnerIdx rest (acc + e.tickets) w = some j :=
            (ih hrest hacc2).mpr ⟨by simpa using hlen, by omega, by omega⟩
          rw [hj]
          rfl

theorem findWinner_eq_findWinnerIdx (l : List LotteryEntry) (acc w : ℤ) :
    findWinner l acc w = (findWinnerIdx l acc w).bind fun i => l.get? i := by
  induction l generalizing acc with
  | nil => rfl
  | cons e rest ih =>
    by_cases hcase : w ≤ acc + e.tickets
    · rw [findWinner, findWinnerIdx, if_pos hcase, if_pos hcase]
      rfl
    · rw [findWinner, findWinnerIdx, if_neg hcase, if_neg hcase, ih]
      cases findWinnerIdx rest (acc + e.tickets) w <;> rfl

theorem findWinnerIdx_isSome {l : List LotteryEntry} {w : ℤ}
    (hpos : ∀ e ∈ l, 0 ≤ e.tickets) (h1 : 1 ≤ w) (hT : w ≤ totalTicketsOf l) :
    ∃ i, findWinnerIdx l 0 w = some i := by
  have hex : ∃ i : ℕ, w ≤ prefTickets l (i + 1) := by
    have hlen : 0 < l.length := by
      rcases l with _ | ⟨e, rest⟩
      · exfalso
        simp [totalTicketsOf] at hT
        omega
      · simp
    refine ⟨l.length - 1, ?_⟩
    have : l.length - 1 + 1 = l.length := by omega
    rw [this, prefTickets_length]
    exact hT
  classical
  set i0 := Nat.find hex with hi0
  have hP : w ≤ prefTickets l (i0 + 1) := Nat.find_spec hex
  have hlo : prefTickets l i0 < w := by
    cases h : i0 with
    | zero => rw [prefTickets_zero]; omega
    | succ j =>
      have : ¬ w ≤ prefTickets l (j + 1) := Nat.find_min hex (by omega)
      omega
  have hlen : i0 < l.length := by
    by_contra hge
    push_neg at hge
    have h1le : prefTickets l i0 = totalTicketsOf l := by
      unfold prefTickets
      rw [List.take_of_length_le hge]
    omega
  refine ⟨i0, (findWinnerIdx_eq_some_iff hpos (by omega)).mpr ⟨hlen, ?_, ?_⟩⟩
  · simpa using hlo
  · simpa using hP

theorem sortByWallet_perm (l : List LotteryEntry) : List.Perm (sortByWallet l) l :=
  List.perm_insertionSort walletLE l

theorem sorted_sortByWallet (l : List LotteryEntry) :
    List.Sorted walletLE (sortByWallet l) :=
  List.sorted_insertionSort walletLE l

theorem sortByWallet_eq_self {l : List LotteryEntry} (h : List.Sorted walletLE l) :
    sortByWallet l = l :=
  List.Sorted.insertionSort_eq h

theorem sortByWallet_idem (l : List LotteryEntry) :
    sortByWallet (sortByWallet l) = sortByWallet l :=
  sortByWallet_eq_self (sorted_sortByWallet l)

theorem mem_eligibleFilter {l : List LotteryEntry} {e : LotteryEntry}
    (h : e ∈ eligibleFilter l) : e ∈ l ∧ e.eligible = true ∧ 0 < e.tickets := by
  have := List.mem_filter.mp h
  simpa using this

theorem eligibleFilter_eq_self {l : List LotteryEntry}
    (h : ∀ e ∈ l, e.eligible = true ∧ 0 < e.tickets) : eligibleFilter l = l := by
  refine List.filter_eq_self.mpr fun e he => ?_
  obtain ⟨h1, h2⟩ := h e he
  simp [h1, h2]

theorem eligibleFilter_sortByWallet_eligibleFilter (l : List LotteryEntry) :
    eligibleFilter (sortByWallet (eligibleFilter l)) = sortByWallet (eligibleFilter l) := by
  refine eligibleFilter_eq_self fun e he => ?_
  have hmem : e ∈ eligibleFilter l := (sortByWallet_perm (eligibleFilter l)).mem_iff.mp he
  exact (mem_eligibleFilter hmem).2

theorem totalTicketsOf_congr_perm {l1 l2 : List LotteryEntry} (h : List.Perm l1 l2) :
    totalTicketsOf l1 = totalTicketsOf l2 :=
  (h.map LotteryEntry.tickets).sum_eq

theorem totalTicketsOf_pos {l : List LotteryEntry} (hne : l ≠ [])
    (hpos : ∀ e ∈ l, 0 < e.tickets) : 0 < totalTicketsOf l := by
  induction l with
  | nil => simp at hne
  | cons e rest ih =>
    have he : 0 < e.tickets := hpos e (by simp)
    rcases Decidable.em (rest = []) with h | h
    · subst h; simpa [totalTicketsOf] using he
    · have := ih h (fun x hx => hpos x (by simp [hx]))
      simp only [totalTicketsOf, List.map_cons, List.sum_cons]
      have : (0:ℤ) < (rest.map LotteryEntry.tickets).sum := this
      omega

theorem string_eq_of_data_eq {s t : String} (h : s.data = t.data) : s = t := by
  cases s
  cases t
  exact congrArg String.mk h

theorem sorted_walletLT_of_nodup {l : List LotteryEntry}
    (hs : List.Sorted walletLE l) (hnd : (l.map LotteryEntry.wallet).Nodup) :
    List.Sorted walletLT l := by
  have hne : l.Pairwise fun a b => a.wallet ≠ b.wallet := List.pairwise_map.mp hnd
  exact (List.Pairwise.and hs hne).imp fun h =>
    lt_of_le_of_ne h.1 fun hdata => h.2 (string_eq_of_data_eq hdata)

theorem buildLotteryEntries_eq (holders : List Holder)
    (em : String → Option EligResult) :
    buildLotteryEntries holders em =
      (holders.filter fun h => decide (1 ≤ calculateTickets h.balance)).map fun h =>
        { wallet := h.owner
          balance := h.balance
          tickets := calculateTickets h.balance
          eligible := (em h.owner).elim false EligResult.eligible
          reason := (em h.owner).bind EligResult.reason } := by
  induction holders with
  | nil => rfl
  | cons holder rest ih =>
    by_cases hc : calculateTickets holder.balance < 1
    · rw [buildLotteryEntries, if_pos hc, ih, List.filter_cons_of_neg (by simpa using hc)]
    · rw [buildLotteryEntries, if_neg hc, ih, List.filter_cons_of_pos (by simpa using hc)]
      rfl

theorem findSaleIn_eq_none_iff {w m : String} {ts : List TokenTransfer} :
    findSaleIn w m ts = none ↔
      ∀ t ∈ ts, ¬(t.mint = m ∧ t.fromUserAccount = w ∧ 0 < t.tokenAmount) := by
  induction ts with
  | nil => simp [findSaleIn]
  | cons t rest ih =>
    by_cases hc : t.mint = m ∧ t.fromUserAccount = w ∧ 0 < t.tokenAmount
    · rw [findSaleIn, if_pos hc]
      simp [hc]
    · rw [findSaleIn, if_neg hc]
      rw [ih]
      constructor
      · intro h x hx
        rcases List.mem_cons.mp hx with rfl | hx2
        · exact hc
        · exact h x hx2
      · intro h x hx
        exact h x (by simp [hx])

theorem findSaleIn_eq_some {w m : String} {ts : List TokenTransfer} {t : TokenTransfer}
    (h : findSaleIn w m ts = some t) :
    t ∈ ts ∧ t.mint = m ∧ t.fromUserAccount = w ∧ 0 < t.tokenAmount := by
  induction ts with
  | nil => simp [findSaleIn] at h
  | cons u rest ih =>
    by_cases hc : u.mint = m ∧ u.fromUserAccount = w ∧ 0 < u.tokenAmount
    · rw [findSaleIn, if_pos hc] at h
      cases h
      exact ⟨by simp, hc⟩
    · rw [findSaleIn, if_neg hc] at h
      obtain ⟨h1, h2⟩ := ih h
      exact ⟨by simp [h1], h2⟩

theorem findSale_eq_none_iff {w m : String} {txs : List ParsedTransaction} :
    findSale w m txs = none ↔ ¬ soldInHistory w m txs := by
  induction txs with
  | nil => simp [findSale, soldInHistory]
  | cons tx rest ih =>
    rw [findSale]
    rcases hts : tx.tokenTransfers with _ | ts
    · simp only []
      rw [ih]
      unfold soldInHistory
      constructor
      · rintro h ⟨x, hmem, ts2, hts2, hrest⟩
        rcases List.mem_cons.mp hmem with rfl | hx
        · rw [hts] at hts2; cases hts2
        · exact h ⟨x, hx, ts2, hts2, hrest⟩
      · rintro h ⟨x, hx, ts2, hts2, hrest⟩
        exact h ⟨x, by simp [hx], ts2, hts2, hrest⟩
    · simp only []
      rcases hfind : findSaleIn w m ts with _ | t
      · simp only []
        rw [ih]
        unfold soldInHistory
        constructor
        · rintro h ⟨x, hmem, ts2, hts2, t2, ht2, hcond⟩
          rcases List.mem_cons.mp hmem with rfl | hx
          · rw [hts] at hts2
            cases hts2
            exact (findSaleIn_eq_none_iff.mp hfind t2 ht2) hcond
          · exact h ⟨x, hx, ts2, hts2, t2, ht2, hcond⟩
        · rintro h ⟨x, hx, ts2, hts2, hrest⟩
          exact h ⟨x, by simp [hx], ts2, hts2, hrest⟩
      · simp only []
        constructor
        · intro h; cases h
        · intro h
          exfalso
          apply h
          obtain ⟨h1, h2⟩ := findSaleIn_eq_some hfind
          exact ⟨tx, by simp, ts, hts, t, h1, h2⟩

theorem sortByWallet_congr_perm {l1 l2 : List LotteryEntry} (hp : List.Perm l1 l2)
    (hnd : (l1.map LotteryEntry.wallet).Nodup) : sortByWallet l1 = sortByWallet l2 := by
  have hnd1 : ((sortByWallet l1).map LotteryEntry.wallet).Nodup :=
    (((sortByWallet_perm l1).map LotteryEntry.wallet).nodup_iff).mpr hnd
  have hnd2 : ((sortByWallet l2).map LotteryEntry.wallet).Nodup :=
    (((sortByWallet_perm l2).map LotteryEntry.wallet).nodup_iff).mpr
      ((hp.map LotteryEntry.wallet).nodup_iff.mp hnd)
  exact List.eq_of_perm_of_sorted
    ((sortByWallet_perm l1).trans (hp.trans (sortByWallet_perm l2).symm))
    (sorted_walletLT_of_nodup (sorted_sortByWallet l1) hnd1)
    (sorted_walletLT_of_nodup (sorted_sortByWallet l2) hnd2)

theorem eligibleFilter_perm {l1 l2 : List LotteryEntry} (hp : List.Perm l1 l2) :
    List.Perm (eligibleFilter l1) (eligibleFilter l2) := hp.filter _

theorem eligibleFilter_nodup_wallets {l : List LotteryEntry}
    (hnd : (l.map LotteryEntry.wallet).Nodup) :
    ((eligibleFilter l).map LotteryEntry.wallet).Nodup :=
  hnd.sublist ((List.filter_sublist l).map LotteryEntry.wallet)

theorem sortedFiltered_congr_perm {l1 l2 : List LotteryEntry} (hp : List.Perm l1 l2)
    (hnd : (l1.map LotteryEntry.wallet).Nodup) :
    sortByWallet (eligibleFilter l1) = sortByWallet (eligibleFilter l2) :=
  sortByWallet_congr_perm (eligibleFilter_perm hp) (eligibleFilter_nodup_wallets hnd)

theorem createSnapshot_congr_perm {l1 l2 : List LotteryEntry} (hp : List.Perm l1 l2)
    (hnd : (l1.map LotteryEntry.wallet).Nodup) (m : String) (now : ℤ) :
    createSnapshot l1 m now = createSnapshot l2 m now := by
  unfold createSnapshot
  rw [sortedFiltered_congr_perm hp hnd]

theorem isEmpty_congr_perm {l1 l2 : List LotteryEntry} (hp : List.Perm l1 l2) :
    l1.isEmpty = l2.isEmpty := by
  rcases h1 : l1 with _ | ⟨e, rest⟩
  · subst h1
    rw [hp.nil_eq.symm]
  · subst h1
    rcases h2 : l2 with _ | ⟨f, rest2⟩
    · subst h2
      exact absurd hp.symm.nil_eq (by simp)
    · rfl

theorem pickWinnerVerifiable_congr_perm {l1 l2 : List LotteryEntry} (hp : List.Perm l1 l2)
    (hnd : (l1.map LotteryEntry.wallet).Nodup) (seed : String) (slot now : ℤ) :
    pickWinnerVerifiable l1 seed slot now = pickWinnerVerifiable l2 seed slot now := by
  simp only [pickWinnerVerifiable]
  rw [isEmpty_congr_perm (eligibleFilter_perm hp), sortedFiltered_congr_perm hp hnd]

theorem pickWinnerVerifiable_eq_of_parse {entries : List LotteryEntry} {seed : String}
    {s : ℕ} (slot now : ℤ) (hne : (eligibleFilter entries).isEmpty = false)
    (hparse : parseHexNat (cleanHashOf seed) = some s) :
    pickWinnerVerifiable entries seed slot now =
      (findWinner (sortByWallet (eligibleFilter entries)) 0
          ((s : ℤ) % totalTicketsOf (sortByWallet (eligibleFilter entries)) + 1)).map fun e =>
        { winner := e
          totalTickets := totalTicketsOf (sortByWallet (eligibleFilter entries))
          totalEligible := (sortByWallet (eligibleFilter entries)).length
          winningTicket := (s : ℤ) % totalTicketsOf (sortByWallet (eligibleFilter entries)) + 1
          timestamp := now
          blockHash := some (cleanHashOf seed)
          blockSlot := some slot } := by
  simp only [pickWinnerVerifiable]
  rw [hne, hparse]
  rfl

theorem verifyResult_eq_of_parse {snap : LotterySnapshot} {seed : String} {s : ℕ}
    (claimed : String) (hparse : parseHexNat (cleanHashOf seed) = some s)
    (hT : snap.totalTickets ≠ 0) :
    verifyResult snap seed claimed =
      match findWinner snap.entries 0 ((s : ℤ) % snap.totalTickets + 1) with
      | some e => some ⟨decide (e.wallet = claimed), e.wallet, (s : ℤ) % snap.totalTickets + 1⟩
      | none => some ⟨false, "", (s : ℤ) % snap.totalTickets + 1⟩ := by
  simp only [verifyResult, hparse]
  rw [if_neg hT]

theorem drawWinningTicket_eq_iff {T t : ℕ} (h1 : 1 ≤ t) (r : ℕ) :
    drawWinningTicket r (T : ℤ) = (t : ℤ) ↔ r % T = t - 1 := by
  unfold drawWinningTicket
  have hmod : (r : ℤ) % (T : ℤ) = ((r % T : ℕ) : ℤ) := by push_cast; ring
  rw [hmod]
  generalize r % T = k
  constructor
  · intro h
    have h2 : k + 1 = t := by exact_mod_cast h
    omega
  · intro h
    have h2 : k + 1 = t := by omega
    exact_mod_cast h2

theorem drawTicket_count (T : ℕ) (hT : 0 < T) (t : ℕ) (h1 : 1 ≤ t) (h2 : t ≤ T) :
    ((Finset.range (2 ^ 32)).filter fun r => drawWinningTicket r (T : ℤ) = (t : ℤ)).card
      = 2 ^ 32 / T + if t - 1 < 2 ^ 32 % T then 1 else 0 := by
  have hcongr :
      ((Finset.range (2 ^ 32)).filter fun r => drawWinningTicket r (T : ℤ) = (t : ℤ))
        = ((Finset.range (2 ^ 32)).filter fun r => r ≡ (t - 1) [MOD T]) := by
    apply Finset.filter_congr
    intro r _
    rw [drawWinningTicket_eq_iff h1 r]
    have hlt : t - 1 < T := by omega
    unfold Nat.ModEq
    rw [Nat.mod_eq_of_lt hlt]
  rw [hcongr, ← Nat.count_eq_card_filter_range]
  rw [Nat.count_modEq_card _ hT]
  rw [Nat.mod_eq_of_lt (by omega)]

/-- Claim C5: for every balance ≥ 0, `calculateTickets balance` equals
`min (floor (min balance 20000000 / 10000)) 2000`; every balance in `[0, 10000)` yields
0 tickets, balance 10000 yields 1, balance 20000000 yields 2000, and balance 50000000
yields 2000 (capped, not 5000). -/
theorem calculateTickets_formula :
    (∀ b : ℚ, 0 ≤ b → calculateTickets b = min ⌊min b 20000000 / 10000⌋ 2000) ∧
    (∀ b : ℚ, 0 ≤ b → b < 10000 → calculateTickets b = 0) ∧
    calculateTickets 10000 = 1 ∧
    calculateTickets 20000000 = 2000 ∧
    calculateTickets 50000000 = 2000 := by
  refine ⟨fun b _ => rfl, fun b hb0 hb1 => ?_, by norm_num [calculateTickets],
    by norm_num [calculateTickets], by norm_num [calculateTickets]⟩
  unfold calculateTickets
  have hmin : min b 20000000 = b := min_eq_left (by linarith)
  rw [hmin]
  have hfl : ⌊b / 10000⌋ = 0 := by
    rw [Int.floor_eq_zero_iff]
    constructor
    · positivity
    · show b / 10000 < 1
      linarith
  simp [hfl]

/-- Witness for C5, applied at the concrete balance 5000. -/
theorem calculateTickets_formula_witness : calculateTickets 5000 = 0 :=
  calculateTickets_formula.2.1 5000 (by norm_num) (by norm_num)

/-- Claim C8: `buildLotteryEntries` returns exactly one entry per holder whose calculated
tickets are ≥ 1, in the holders' order, carrying the holder's wallet, balance and
tickets; no emitted entry has tickets < 1; a holder absent from the eligibility map
yields `eligible = false` with no reason. -/
theorem buildLotteryEntries_spec :
    (∀ holders : List Holder, ∀ em : String → Option EligResult,
      buildLotteryEntries holders em =
        (holders.filter fun h => decide (1 ≤ calculateTickets h.balance)).map fun h =>
          { wallet := h.owner
            balance := h.balance
            tickets := calculateTickets h.balance
            eligible := (em h.owner).elim false EligResult.eligible
            reason := (em h.owner).bind EligResult.reason }) ∧
    (∀ holders : List Holder, ∀ em : String → Option EligResult,
      ∀ e ∈ buildLotteryEntries holders em, 1 ≤ e.tickets) ∧
    (∀ holders : List Holder, ∀ em : String → Option EligResult,
      ∀ e ∈ buildLotteryEntries holders em, em e.wallet = none →
        e.eligible = false ∧ e.reason = none) := by
  refine ⟨buildLotteryEntries_eq, ?_, ?_⟩
  · intro holders em e he
    rw [buildLotteryEntries_eq] at he
    obtain ⟨h, hmem, rfl⟩ := List.mem_map.mp he
    have := (List.mem_filter.mp hmem).2
    simpa using this
  · intro holders em e he hnone
    rw [buildLotteryEntries_eq] at he
    obtain ⟨h, _, rfl⟩ := List.mem_map.mp he
    have hw : em h.owner = none := hnone
    rw [hw]
    exact ⟨rfl, rfl⟩

/-- Witness for C8: the single-holder instance with an empty eligibility map. -/
theorem buildLotteryEntries_spec_witness :
    1 ≤ ({ wallet := "a", balance := 15000, tickets := 1, eligible := false,
           reason := none } : LotteryEntry).tickets :=
  buildLotteryEntries_spec.2.1 [⟨"a", 15000⟩] (fun _ => none) _
    (by norm_num [buildLotteryEntries, calculateTickets])

/-- Claim C4: on a canonically ordered eligible list with all tickets positive and
total T > 0, the cumulative walk assigns to every ticket number w in [1, T] exactly one
entry index; index i is selected exactly for the w in the half-open range
(prefTickets i, prefTickets (i+1)], a range of exactly that entry's tickets-many
consecutive values; and larger w select entries with never-smaller index, so the
cumulative ranges partition [1, T] with no gaps or overlaps. -/
theorem cumulativeWalk_partition (l : List LotteryEntry)
    (hpos : ∀ e ∈ l, 0 < e.tickets) :
    (∀ w : ℤ, 1 ≤ w → w ≤ totalTicketsOf l →
      ∃ i : ℕ, i < l.length ∧ findWinnerIdx l 0 w = some i ∧
        findWinner l 0 w = l.get? i ∧
        prefTickets l i < w ∧ w ≤ prefTickets l (i + 1) ∧
        (∀ j : ℕ, prefTickets l j < w → w ≤ prefTickets l (j + 1) → j = i)) ∧
    (∀ i : ℕ, ∀ hi : i < l.length,
      prefTickets l (i + 1) - prefTickets l i = (l.get ⟨i, hi⟩).tickets ∧
      (Finset.Ioc (prefTickets l i) (prefTickets l (i + 1))).card
        = (l.get ⟨i, hi⟩).tickets.toNat ∧
      (∀ w : ℤ, prefTickets l i < w → w ≤ prefTickets l (i + 1) →
        findWinnerIdx l 0 w = some i)) ∧
    (∀ w v : ℤ, 1 ≤ w → w ≤ v → v ≤ totalTicketsOf l →
      ∀ i j : ℕ, findWinnerIdx l 0 w = some i → findWinnerIdx l 0 v = some j → i ≤ j) := by
  have hnn : ∀ e ∈ l, 0 ≤ e.tickets := fun e he => le_of_lt (hpos e he)
  have huniq : ∀ w : ℤ, ∀ i j : ℕ, prefTickets l i < w → w ≤ prefTickets l (i + 1) →
      prefTickets l j < w → w ≤ prefTickets l (j + 1) → i = j := by
    intro w i j hi1 hi2 hj1 hj2
    by_contra hne
    rcases Nat.lt_or_ge i j with h | h
    · have := prefTickets_mono hnn (show i + 1 ≤ j by omega)
      omega
    · have hji : j < i := by omega
      have := prefTickets_mono hnn (show j + 1 ≤ i by omega)
      omega
  refine ⟨?_, ?_, ?_⟩
  · intro w h1 hT
    obtain ⟨i, hidx⟩ := findWinnerIdx_isSome hnn h1 hT
    obtain ⟨hlen, hlo, hhi⟩ := (findWinnerIdx_eq_some_iff hnn (by omega)).mp hidx
    refine ⟨i, hlen, hidx, ?_, by simpa using hlo, by simpa using hhi, ?_⟩
    · rw [findWinner_eq_findWinnerIdx, hidx]
      rfl
    · intro j hj1 hj2
      exact huniq w j i hj1 hj2 (by simpa using hlo) (by simpa using hhi)
  · intro i hi
    have hdiff : prefTickets l (i + 1) = prefTickets l i + (l.get ⟨i, hi⟩).tickets :=
      prefTickets_succ_get hi
    refine ⟨by omega, ?_, ?_⟩
    · rw [Int.card_Ioc]
      congr 1
      omega
    · intro w hw1 hw2
      have hge : 0 ≤ prefTickets l i := prefTickets_nonneg hnn i
      exact (findWinnerIdx_eq_some_iff hnn (by omega)).mpr
        ⟨hi, by simpa using hw1, by simpa using hw2⟩
  · intro w v hw hwv hvT i j hiw hjv
    obtain ⟨hleni, hloi, hhii⟩ := (findWinnerIdx_eq_some_iff hnn (by omega)).mp hiw
    obtain ⟨hlenj, hloj, hhij⟩ := (findWinnerIdx_eq_some_iff hnn (by omega)).mp hjv
    by_contra hij
    push_neg at hij
    have := prefTickets_mono hnn (show j + 1 ≤ i by omega)
    omega

/-- Witness for C4: the two-entry list [eA, eB] (tickets 1 and 2) at drawn ticket w = 2. -/
theorem cumulativeWalk_partition_witness :
    ∃ i : ℕ, i < [eA, eB].length ∧ findWinnerIdx [eA, eB] 0 2 = some i ∧
      findWinner [eA, eB] 0 2 = [eA, eB].get? i ∧
      prefTickets [eA, eB] i < 2 ∧ 2 ≤ prefTickets [eA, eB] (i + 1) ∧
      (∀ j : ℕ, prefTickets [eA, eB] j < 2 → 2 ≤ prefTickets [eA, eB] (j + 1) → j = i) :=
  (cumulativeWalk_partition [eA, eB] (by decide)).1 2 (by decide) (by decide)

/-- Claim C9 (amended): for a uniformly distributed 32-bit value r, the map
`r ↦ (r mod T) + 1` of `pickWinner` gives ticket t exactly
`2^32 / T + (1 if t - 1 < 2^32 mod T else 0)` of the 2^32 equally likely values, so
each ticket has either ceil(2^32/T) or floor(2^32/T) chances; the distribution is
exactly uniform when T divides 2^32 (but not in general: the drawn ticket is only
near-uniform, with a modulo bias of at most one part in 2^32/T). -/
theorem drawWinningTicket_distribution (T : ℕ) (hT : 0 < T) :
    (∀ t : ℕ, 1 ≤ t → t ≤ T →
      ((Finset.range (2 ^ 32)).filter fun r => drawWinningTicket r (T : ℤ) = (t : ℤ)).card
        = 2 ^ 32 / T + if t - 1 < 2 ^ 32 % T then 1 else 0) ∧
    (T ∣ 2 ^ 32 → ∀ t u : ℕ, 1 ≤ t → t ≤ T → 1 ≤ u → u ≤ T →
      ((Finset.range (2 ^ 32)).filter fun r => drawWinningTicket r (T : ℤ) = (t : ℤ)).card
        = ((Finset.range (2 ^ 32)).filter fun r =>
            drawWinningTicket r (T : ℤ) = (u : ℤ)).card) := by
  refine ⟨fun t h1 h2 => drawTicket_count T hT t h1 h2, ?_⟩
  intro hdvd t u ht1 ht2 hu1 hu2
  rw [drawTicket_count T hT t ht1 ht2, drawTicket_count T hT u hu1 hu2]
  have hmodz : 2 ^ 32 % T = 0 := Nat.mod_eq_zero_of_dvd hdvd
  rw [hmodz]
  simp

/-- Counterexample to C9 as stated: for T = 3 the drawn ticket is not uniform — ticket 1
receives one more of the 2^32 random values than ticket 2. -/
theorem drawWinningTicket_distribution_cex :
    ((Finset.range (2 ^ 32)).filter fun r => drawWinningTicket r 3 = 1).card ≠
      ((Finset.range (2 ^ 32)).filter fun r => drawWinningTicket r 3 = 2).card := by
  have h1 := drawTicket_count 3 (by norm_num) 1 (by norm_num) (by norm_num)
  have h2 := drawTicket_count 3 (by norm_num) 2 (by norm_num) (by norm_num)
  norm_num at h1 h2 ⊢
  omega

/-- Witness for C9 at T = 2, t = 1: ticket 1 receives exactly 2^32 / 2 values. -/
theorem drawWinningTicket_distribution_witness :
    ((Finset.range (2 ^ 32)).filter fun r =>
        drawWinningTicket r ((2 : ℕ) : ℤ) = ((1 : ℕ) : ℤ)).card
      = 2 ^ 32 / 2 + if 1 - 1 < 2 ^ 32 % 2 then 1 else 0 :=
  (drawWinningTicket_distribution 2 (by norm_num)).1 1 (by norm_num) (by norm_num)

/-- Claim C3 (amended): `pickWinnerVerifiable` and `createSnapshot` re-sort the filtered
eligible entries ascending by wallet before computing `totalTickets` or walking, so for
every permutation of the same input entries *with pairwise distinct wallets* both
functions produce the same output, and every snapshot's entry sequence is ascending in
wallet order; with duplicated wallets the stable sort preserves the input order of the
duplicates, so full order-independence holds only under wallet distinctness. -/
theorem canonical_order_spec :
    (∀ l1 l2 : List LotteryEntry, List.Perm l1 l2 →
      (l1.map LotteryEntry.wallet).Nodup → ∀ m : String, ∀ now : ℤ,
        createSnapshot l1 m now = createSnapshot l2 m now) ∧
    (∀ l1 l2 : List LotteryEntry, List.Perm l1 l2 →
      (l1.map LotteryEntry.wallet).Nodup → ∀ seed : String, ∀ slot now : ℤ,
        pickWinnerVerifiable l1 seed slot now = pickWinnerVerifiable l2 seed slot now) ∧
    (∀ l : List LotteryEntry, ∀ m : String, ∀ now : ℤ,
      List.Sorted walletLE (createSnapshot l m now).entries) := by
  refine ⟨fun l1 l2 hp hnd m now => createSnapshot_congr_perm hp hnd m now,
    fun l1 l2 hp hnd seed slot now => pickWinnerVerifiable_congr_perm hp hnd seed slot now,
    fun l m now => ?_⟩
  show List.Sorted walletLE (sortByWallet (eligibleFilter l))
  exact sorted_sortByWallet _

/-- Counterexample to C3 as stated: two distinct entries sharing wallet "a"; swapping the
input order changes the snapshot (and hence the output is not permutation-invariant
without wallet distinctness). -/
theorem canonical_order_cex :
    (createSnapshot [eDup1, eDup2] "m" 0).entries.map LotteryEntry.reason ≠
      (createSnapshot [eDup2, eDup1] "m" 0).entries.map LotteryEntry.reason := by
  decide

/-- Witness for C3 on the distinct-wallet pair [eA, eB] and its swap. -/
theorem canonical_order_witness :
    createSnapshot [eA, eB] "m" 0 = createSnapshot [eB, eA] "m" 0 :=
  canonical_order_spec.1 [eA, eB] [eB, eA] (List.Perm.swap eB eA []) (by decide) "m" 0

/-- Claim C6 (amended): in selection, the modulus is taken only after the eligible set
is known non-empty, and a non-empty eligible set forces a positive ticket total (each
eligible entry has tickets > 0); a snapshot built from entries with a non-empty eligible
subset likewise has `totalTickets > 0`. (As stated the claim fails: `createSnapshot`
applied to an entry list with no eligible entries yields `totalTickets = 0`, on which
`verifyResult` does hit the modulo-by-zero exception.) -/
theorem no_modulo_by_zero :
    (∀ entries : List LotteryEntry, eligibleFilter entries ≠ [] →
      0 < totalTicketsOf (eligibleFilter entries) ∧
      0 < totalTicketsOf (sortByWallet (eligibleFilter entries))) ∧
    (∀ entries : List LotteryEntry, ∀ m : String, ∀ now : ℤ,
      eligibleFilter entries ≠ [] → 0 < (createSnapshot entries m now).totalTickets) := by
  have key : ∀ entries : List LotteryEntry, eligibleFilter entries ≠ [] →
      0 < totalTicketsOf (eligibleFilter entries) := fun entries hne =>
    totalTicketsOf_pos hne fun e he => (mem_eligibleFilter he).2.2
  refine ⟨fun entries hne => ⟨key entries hne, ?_⟩, fun entries m now hne => ?_⟩
  · rw [totalTicketsOf_congr_perm (sortByWallet_perm _)]
    exact key entries hne
  · show 0 < totalTicketsOf (sortByWallet (eligibleFilter entries))
    rw [totalTicketsOf_congr_perm (sortByWallet_perm _)]
    exact key entries hne

/-- Counterexample to C6 as stated: the empty entry list produces a snapshot with
`totalTickets = 0`, and `verifyResult` on it reaches the modulo by
`snapshot.totalTickets = 0` (the modelled `RangeError`, returned as `none`). -/
theorem no_modulo_by_zero_cex :
    (createSnapshot [] "m" 0).totalTickets = 0 ∧
    verifyResult (createSnapshot [] "m" 0) "ff" "w" = none := by
  exact ⟨rfl, rfl⟩

/-- Witness for C6 on the singleton eligible list [eA]. -/
theorem no_modulo_by_zero_witness :
    0 < totalTicketsOf (eligibleFilter [eA]) ∧
    0 < totalTicketsOf (sortByWallet (eligibleFilter [eA])) :=
  no_modulo_by_zero.1 [eA] (by decide)

theorem snapshot_entries_eq (entries : List LotteryEntry) (m : String) (now : ℤ) :
    (createSnapshot entries m now).entries = sortByWallet (eligibleFilter entries) := rfl

theorem snapshot_totalTickets_eq (entries : List LotteryEntry) (m : String) (now : ℤ) :
    (createSnapshot entries m now).totalTickets
      = totalTicketsOf (sortByWallet (eligibleFilter entries)) := rfl

/-- Claim C1: for every snapshot produced by `createSnapshot` and every seed, if
`pickWinnerVerifiable` on the snapshot's entries returns a result with winner w and
winning ticket t, then `verifyResult` of the same snapshot and seed, with w's wallet
claimed, returns valid = true with calculatedWinner = w.wallet and winning ticket t. -/
theorem verify_confirms_pick (entries : List LotteryEntry) (tokenMint seed : String)
    (slot now0 now1 : ℤ) (r : LotteryResult)
    (hpick : pickWinnerVerifiable (createSnapshot entries tokenMint now0).entries
        seed slot now1 = some r) :
    verifyResult (createSnapshot entries tokenMint now0) seed r.winner.wallet =
      some ⟨true, r.winner.wallet, r.winningTicket⟩ := by
  rw [snapshot_entries_eq] at hpick
  have hfil : eligibleFilter (sortByWallet (eligibleFilter entries))
      = sortByWallet (eligibleFilter entries) :=
    eligibleFilter_sortByWallet_eligibleFilter entries
  have hsorted2 : sortByWallet (sortByWallet (eligibleFilter entries))
      = sortByWallet (eligibleFilter entries) := sortByWallet_idem _
  have hLne : (eligibleFilter (sortByWallet (eligibleFilter entries))).isEmpty = false := by
    cases hh : (eligibleFilter (sortByWallet (eligibleFilter entries))).isEmpty
    · rfl
    · exfalso
      rw [pickWinnerVerifiable] at hpick
      simp only [hh] at hpick
      simp at hpick
  rcases hparse : parseHexNat (cleanHashOf seed) with _ | s
  · exfalso
    rw [pickWinnerVerifiable] at hpick
    simp only [hLne, hparse] at hpick
    simp at hpick
  · rw [pickWinnerVerifiable_eq_of_parse slot now1 hLne hparse] at hpick
    rw [hfil, hsorted2] at hpick
    have hLneList : sortByWallet (eligibleFilter entries) ≠ [] := by
      intro hnil
      rw [hfil] at hLne
      rw [hnil] at hLne
      simp at hLne
    have hTpos : 0 < totalTicketsOf (sortByWallet (eligibleFilter entries)) :=
      totalTicketsOf_pos hLneList fun x hx =>
        (mem_eligibleFilter ((sortByWallet_perm _).mem_iff.mp hx)).2.2
    rcases hfw : findWinner (sortByWallet (eligibleFilter entries)) 0
        ((s : ℤ) % totalTicketsOf (sortByWallet (eligibleFilter entries)) + 1)
      with _ | e
    · rw [hfw] at hpick
      simp at hpick
    · rw [hfw] at hpick
      simp only [Option.map_some'] at hpick
      have hr := Option.some.inj hpick
      subst hr
      rw [verifyResult_eq_of_parse _ hparse (by rw [snapshot_totalTickets_eq]; omega)]
      rw [snapshot_entries_eq, snapshot_totalTickets_eq]
      rw [hfw]
      simp

/-- Concrete verifiable-draw result used by the witness of C1. -/
def rW : LotteryResult :=
  { winner := eA, totalTickets := 1, totalEligible := 1, winningTicket := 1,
    timestamp := 0, blockHash := some "ff", blockSlot := some 1 }

/-- Witness for C1 on the snapshot of [eA] with seed "ff". -/
theorem verify_confirms_pick_witness :
    verifyResult (createSnapshot [eA] "m" 0) "ff" rW.winner.wallet =
      some ⟨true, rW.winner.wallet, rW.winningTicket⟩ :=
  verify_confirms_pick [eA] "m" "ff" 1 0 0 rW rfl

/-- Claim C2: with a non-empty eligible subset and a well-formed hexadecimal seed,
`pickWinnerVerifiable` strips an optional 0x prefix, reads the remaining digits as an
arbitrary-precision natural number s, sets winningTicket = (s mod totalTickets) + 1
over the wallet-sorted eligible entries, returns the first sorted entry whose cumulative
ticket sum reaches the winning ticket, and reports the normalized seed; `verifyResult`
derives the winning ticket from the snapshot's `totalTickets` by the same formula. -/
theorem pickWinnerVerifiable_formula (entries : List LotteryEntry) (seed : String)
    (slot now : ℤ) (s : ℕ) (hne : eligibleFilter entries ≠ [])
    (hparse : parseHexNat (cleanHashOf seed) = some s) :
    ∃ r : LotteryResult,
      pickWinnerVerifiable entries seed slot now = some r ∧
      r.winningTicket
        = (s : ℤ) % totalTicketsOf (sortByWallet (eligibleFilter entries)) + 1 ∧
      r.totalTickets = totalTicketsOf (sortByWallet (eligibleFilter entries)) ∧
      r.blockHash = some (cleanHashOf seed) ∧
      r.blockSlot = some slot ∧
      (∃ i : ℕ, i < (sortByWallet (eligibleFilter entries)).length ∧
        (sortByWallet (eligibleFilter entries)).get? i = some r.winner ∧
        prefTickets (sortByWallet (eligibleFilter entries)) i < r.winningTicket ∧
        r.winningTicket ≤ prefTickets (sortByWallet (eligibleFilter entries)) (i + 1)) ∧
      (∀ snap : LotterySnapshot, ∀ claimed : String, snap.totalTickets ≠ 0 →
        ∃ v : VerifyOutcome, verifyResult snap seed claimed = some v ∧
          v.winningTicket = (s : ℤ) % snap.totalTickets + 1) := by
  have hempty : (eligibleFilter entries).isEmpty = false := by
    cases hh : (eligibleFilter entries).isEmpty
    · rfl
    · exact absurd (List.isEmpty_iff.mp hh) hne
  have hLne : sortByWallet (eligibleFilter entries) ≠ [] := by
    intro hnil
    have hp := sortByWallet_perm (eligibleFilter entries)
    rw [hnil] at hp
    exact hne hp.nil_eq.symm
  have hpos : ∀ e ∈ sortByWallet (eligibleFilter entries), 0 < e.tickets := fun x hx =>
    (mem_eligibleFilter ((sortByWallet_perm _).mem_iff.mp hx)).2.2
  have hTpos : 0 < totalTicketsOf (sortByWallet (eligibleFilter entries)) :=
    totalTicketsOf_pos hLne hpos
  set L := sortByWallet (eligibleFilter entries) with hLdef
  set w : ℤ := (s : ℤ) % totalTicketsOf L + 1 with hwdef
  have hw1 : 1 ≤ w := by
    have := Int.emod_nonneg (s : ℤ) (by omega : totalTicketsOf L ≠ 0)
    omega
  have hwT : w ≤ totalTicketsOf L := by
    have := Int.emod_lt_of_pos (s : ℤ) hTpos
    omega
  obtain ⟨i, hidx⟩ := findWinnerIdx_isSome (fun e he => le_of_lt (hpos e he)) hw1 hwT
  obtain ⟨hlen, hlo, hhi⟩ :=
    (findWinnerIdx_eq_some_iff (fun e he => le_of_lt (hpos e he)) (by omega)).mp hidx
  have hfw : findWinner L 0 w = L.get? i := by
    rw [findWinner_eq_findWinnerIdx, hidx]
    rfl
  have hget : L.get? i = some (L.get ⟨i, hlen⟩) := List.get?_eq_get hlen
  refine ⟨{ winner := L.get ⟨i, hlen⟩, totalTickets := totalTicketsOf L,
            totalEligible := L.length, winningTicket := w, timestamp := now,
            blockHash := some (cleanHashOf seed), blockSlot := some slot },
    ?_, rfl, rfl, rfl, rfl, ⟨i, hlen, by rw [hget], by simpa using hlo, by simpa using hhi⟩, ?_⟩
  · rw [pickWinnerVerifiable_eq_of_parse slot now hempty hparse]
    rw [← hLdef, hfw, hget]
    rfl
  · intro snap claimed hT
    rw [verifyResult_eq_of_parse claimed hparse hT]
    rcases hfs : findWinner snap.entries 0 ((s : ℤ) % snap.totalTickets + 1) with _ | e
    · exact ⟨_, rfl, rfl⟩
    · exact ⟨_, rfl, rfl⟩

/-- Witness for C2 on [eA] with seed "0xff" (s = 255, one ticket in total). -/
theorem pickWinnerVerifiable_formula_witness :
    ∃ r : LotteryResult,
      pickWinnerVerifiable [eA] "0xff" 7 0 = some r ∧
      r.winningTicket = (255 : ℤ) % totalTicketsOf (sortByWallet (eligibleFilter [eA])) + 1 ∧
      r.totalTickets = totalTicketsOf (sortByWallet (eligibleFilter [eA])) ∧
      r.blockHash = some (cleanHashOf "0xff") ∧
      r.blockSlot = some 7 ∧
      (∃ i : ℕ, i < (sortByWallet (eligibleFilter [eA])).length ∧
        (sortByWallet (eligibleFilter [eA])).get? i = some r.winner ∧
        prefTickets (sortByWallet (eligibleFilter [eA])) i < r.winningTicket ∧
        r.winningTicket ≤ prefTickets (sortByWallet (eligibleFilter [eA])) (i + 1)) ∧
      (∀ snap : LotterySnapshot, ∀ claimed : String, snap.totalTickets ≠ 0 →
        ∃ v : VerifyOutcome, verifyResult snap "0xff" claimed = some v ∧
          v.winningTicket = (255 : ℤ) % snap.totalTickets + 1) :=
  pickWinnerVerifiable_formula [eA] "0xff" 7 0 255 (by decide) (by decide)

theorem hasNeverSoldFetch_network (c : EligCache) (n : ℤ) (k w m : String)
    (f : FetchOutcome) : (hasNeverSoldFetch c n k w m f).2.2 = true := by
  cases f with
  | ok txs =>
    simp only [hasNeverSoldFetch]
    rcases hfs : findSale w m txs with _ | p
    · simp only [hfs]
    · simp only [hfs]
  | httpError st => rfl
  | networkError => rfl

/-- Claim C7 (amended): `hasNeverSold` is eligible iff no fetched transaction contains an
outgoing transfer of the token from the wallet with positive amount; on the first such
transfer both variants return ineligible with a reason citing the transferred amount,
but only the birdeye.ts variant's reason also cites the truncated transaction signature
(the helius.ts variant's reason carries the amount only); a failed history query
(non-success response or exception) yields ineligible with an explanatory reason in
both variants (fail-closed). -/
theorem hasNeverSold_spec :
    (∀ w m : String, ∀ txs : List ParsedTransaction,
      ((hasNeverSoldBirdeye w m (.ok txs)).eligible = true ↔ ¬ soldInHistory w m txs)) ∧
    (∀ w m : String, ∀ now : ℤ, ∀ txs : List ParsedTransaction,
      ((hasNeverSoldHelius emptyCache now w m (.ok txs)).1.eligible = true ↔
        ¬ soldInHistory w m txs)) ∧
    (∀ w m : String, ∀ now : ℤ, ∀ txs : List ParsedTransaction,
      ∀ tx : ParsedTransaction, ∀ t : TokenTransfer, findSale w m txs = some (tx, t) →
      hasNeverSoldBirdeye w m (.ok txs)
          = ⟨false, some ("Sold/transferred " ++ toString t.tokenAmount ++
              " tokens (tx: " ++ tx.signature.take 8 ++ "...)")⟩ ∧
      (hasNeverSoldHelius emptyCache now w m (.ok txs)).1
          = ⟨false, some ("Sold/transferred " ++ toString t.tokenAmount ++ " tokens")⟩) ∧
    (∀ w m : String, ∀ now : ℤ, ∀ status : ℕ,
      hasNeverSoldBirdeye w m (.httpError status)
          = ⟨false, some ("API error: " ++ toString status)⟩ ∧
      hasNeverSoldBirdeye w m .networkError
          = ⟨false, some "Error checking transaction history"⟩ ∧
      (hasNeverSoldHelius emptyCache now w m (.httpError status)).1
          = ⟨false, some ("API error: " ++ toString status)⟩ ∧
      (hasNeverSoldHelius emptyCache now w m .networkError).1
          = ⟨false, some "Error checking transaction history"⟩) := by
  refine ⟨?_, ?_, ?_, ?_⟩
  · intro w m txs
    simp only [hasNeverSoldBirdeye]
    rcases hfs : findSale w m txs with _ | p
    · simp only [hfs]
      simpa using findSale_eq_none_iff.mp hfs
    · rcases p with ⟨tx, t⟩
      simp only [hfs]
      constructor
      · intro h
        cases h
      · intro h
        exfalso
        have : findSale w m txs = none := findSale_eq_none_iff.mpr h
        rw [hfs] at this
        cases this
  · intro w m now txs
    simp only [hasNeverSoldHelius, emptyCache, hasNeverSoldFetch]
    rcases hfs : findSale w m txs with _ | p
    · simp only [hfs]
      simpa using findSale_eq_none_iff.mp hfs
    · rcases p with ⟨tx, t⟩
      simp only [hfs]
      constructor
      · intro h
        cases h
      · intro h
        exfalso
        have : findSale w m txs = none := findSale_eq_none_iff.mpr h
        rw [hfs] at this
        cases this
  · intro w m now txs tx t hfs
    constructor
    · simp only [hasNeverSoldBirdeye, hfs]
    · simp only [hasNeverSoldHelius, emptyCache, hasNeverSoldFetch, hfs]
  · intro w m now status
    exact ⟨rfl, rfl, rfl, rfl⟩

/-- Counterexample to C7 as stated: on a concrete history with one qualifying transfer,
the helius.ts variant's reason cites only the amount — no fragment of the transaction
signature (here its 8-character truncation "sig12345") occurs in the reason — while the
birdeye.ts variant includes it. -/
theorem hasNeverSold_reason_cex :
    (hasNeverSoldHelius emptyCache 0 "w" "m" (.ok [txSale])).1
        = ⟨false, some "Sold/transferred 5 tokens"⟩ ∧
    ¬ ("sig12345".data <:+: "Sold/transferred 5 tokens".data) ∧
    hasNeverSoldBirdeye "w" "m" (.ok [txSale])
        = ⟨false, some "Sold/transferred 5 tokens (tx: sig12345...)"⟩ := by
  exact ⟨rfl, by decide, rfl⟩

/-- Witness for C7 on the concrete history [txSale]. -/
theorem hasNeverSold_spec_witness :
    hasNeverSoldBirdeye "w" "m" (.ok [txSale])
        = ⟨false, some ("Sold/transferred " ++ toString (5 : ℚ) ++
            " tokens (tx: " ++ "sig12345XYZ".take 8 ++ "...)")⟩ ∧
    (hasNeverSoldHelius emptyCache 0 "w" "m" (.ok [txSale])).1
        = ⟨false, some ("Sold/transferred " ++ toString (5 : ℚ) ++ " tokens")⟩ :=
  hasNeverSold_spec.2.2.1 "w" "m" 0 [txSale] txSale
    { mint := "m", fromUserAccount := "w", toUserAccount := "v", tokenAmount := 5 } rfl

/-- Claim C10 (amended): if a `hasNeverSold` call misses the cache and its history fetch
succeeds (only the two success paths write the cache), then a second call for the same
`(tokenMint, wallet)` within the 5-minute TTL performs no network request and returns a
result identical to the first call's; a call finding no fresh cache entry (absent or
stale) performs a network request, as does the first call after `clearEligibilityCache`.
(As stated the claim fails: a first call whose fetch fails writes no cache entry, so the
second call does hit the network and can differ.) -/
theorem eligibilityCache_law :
    (∀ c0 : EligCache, ∀ t0 t1 : ℤ, ∀ w m : String, ∀ txs : List ParsedTransaction,
      ∀ f1 : FetchOutcome, c0 (m ++ ":" ++ w) = none → t1 - t0 < CACHE_TTL →
      hasNeverSoldHelius (hasNeverSoldHelius c0 t0 w m (.ok txs)).2.1 t1 w m f1 =
        ((hasNeverSoldHelius c0 t0 w m (.ok txs)).1,
         (hasNeverSoldHelius c0 t0 w m (.ok txs)).2.1, false)) ∧
    (∀ c : EligCache, ∀ t : ℤ, ∀ w m : String, ∀ f : FetchOutcome,
      (∀ e : CacheEntry, c (m ++ ":" ++ w) = some e → CACHE_TTL ≤ t - e.timestamp) →
      (hasNeverSoldHelius c t w m f).2.2 = true) ∧
    (∀ c : EligCache, ∀ t : ℤ, ∀ w m : String, ∀ f : FetchOutcome,
      (hasNeverSoldHelius (clearEligibilityCache c) t w m f).2.2 = true) := by
  refine ⟨?_, ?_, ?_⟩
  · intro c0 t0 t1 w m txs f1 hmiss httl
    simp only [hasNeverSoldHelius, hmiss, hasNeverSoldFetch]
    rcases hfs : findSale w m txs with _ | p
    · simp only [hfs, cacheSet, if_pos]
      rw [if_pos httl]
    · rcases p with ⟨tx, t⟩
      simp only [hfs, cacheSet, if_pos]
      rw [if_pos httl]
  · intro c t w m f hstale
    simp only [hasNeverSoldHelius]
    rcases hc : c (m ++ ":" ++ w) with _ | e
    · simp only []
      exact hasNeverSoldFetch_network ..
    · simp only []
      rw [if_neg (by have := hstale e hc; omega)]
      exact hasNeverSoldFetch_network ..
  · intro c t w m f
    simp only [hasNeverSoldHelius, clearEligibilityCache, emptyCache]
    exact hasNeverSoldFetch_network ..

/-- Counterexample to C10 as stated: a first call whose fetch returns HTTP 500 caches
nothing, so a second call one millisecond later (well within the TTL) still performs a
network request and — the history now fetching as empty — returns a different result. -/
theorem eligibilityCache_law_cex :
    ((1 : ℤ) - 0 < CACHE_TTL) ∧
    (hasNeverSoldHelius emptyCache 0 "w" "m" (.httpError 500)).1.eligible = false ∧
    (hasNeverSoldHelius (hasNeverSoldHelius emptyCache 0 "w" "m" (.httpError 500)).2.1
        1 "w" "m" (.ok [])).2.2 = true ∧
    (hasNeverSoldHelius (hasNeverSoldHelius emptyCache 0 "w" "m" (.httpError 500)).2.1
        1 "w" "m" (.ok [])).1.eligible = true := by
  exact ⟨by decide, rfl, rfl, rfl⟩

/-- Witness for C10: concrete cache round trip with an empty history. -/
theorem eligibilityCache_law_witness :
    hasNeverSoldHelius (hasNeverSoldHelius emptyCache 0 "w" "m" (.ok [])).2.1
        1 "w" "m" FetchOutcome.networkError =
      ((hasNeverSoldHelius emptyCache 0 "w" "m" (.ok [])).1,
       (hasNeverSoldHelius emptyCache 0 "w" "m" (.ok [])).2.1, false) :=
  eligibilityCache_law.1 emptyCache 0 1 "w" "m" [] FetchOutcome.networkError rfl (by decide)
